import Mathlib

/-!
Shallow embedding of the CKB JSON-RPC client (`client/src/sync.rs`).

The remote transport is an external collaborator: every method that performs
a remote call is modelled as a function of the decoded remote response (or of
a response function, for methods that compute the request key first).
Machine integers (`u64`) are modelled as `Nat` with explicit `2 ^ 64` bounds
exactly where the Rust code uses checked arithmetic.  Fallible Rust code
returning `Result` is modelled with `Except Err`; a Rust panic (such as the
out-of-range `outputs[0]` indexing in `disperse`) is modelled by the
distinguished `Err.panicked` constructor, which no `Error::custom` path ever
produces.
-/

/-- Opaque spending condition (`core::script::Script`); the client only
clones it and passes it through, so it is modelled as an opaque value. -/
abbrev Script := Nat

/-- Error values.  `transport` models a failed remote call propagated
verbatim; `custom msg` models `Error::custom(msg)`, which is how the client
encodes every not-found, parse, overflow and empty-input failure; `panicked`
models a Rust panic escaping the function (not a `Result` error). -/
inductive Err where
  | transport (e : String)
  | custom (msg : String)
  | panicked (msg : String)
  deriving DecidableEq

deriving instance DecidableEq for Except

/-- Reference to an output of a prior transaction (`core OutPoint`). -/
structure OutPoint where
  tx_hash : Nat
  index : Nat
  deriving DecidableEq

/-- One entry of the `get_cells_by_lock_hash` response
(`types::CellOutputWithOutPoint`): the capacity arrives as a string. -/
structure CellOutputWithOutPoint where
  out_point : OutPoint
  capacity : String
  lock : Nat
  deriving DecidableEq

/-- Transaction input (`core::transaction::CellInput`). -/
structure CellInput where
  previous_output : OutPoint
  args : List (List Nat)
  since : Nat
  deriving DecidableEq

/-- Transaction output (`core::transaction::CellOutput`); `core::Capacity`
is a wrapped `u64`, modelled as `Nat`. -/
structure CellOutput where
  capacity : Nat
  data : List Nat
  lock : Script
  type_ : Option Script
  deriving DecidableEq

/-- Assembled transaction (`types::Transaction`); `hash` is left at its
default (0), the client never computes it. -/
structure Transaction where
  version : Nat
  deps : List OutPoint
  inputs : List CellInput
  outputs : List CellOutput
  witnesses : List (List Nat)
  hash : Nat
  deriving DecidableEq

/-- Strip the optional leading `+` sign accepted by Rust's unsigned
`from_str`. -/
def stripPlus : List Char → List Char
  | '+' :: rest => rest
  | cs => cs

/-- Decimal value of a digit list. -/
def digitsVal (cs : List Char) : Nat :=
  cs.foldl (fun a c => a * 10 + (c.toNat - 48)) 0

/-- Rust `str::parse::<u64>()`: an optional leading `+`, then one or more
ASCII digits, value below `2 ^ 64`; anything else fails. -/
def parseU64 (s : String) : Option Nat :=
  let cs := stripPlus s.data
  if cs ≠ [] ∧ cs.all Char.isDigit then
    if digitsVal cs < 2 ^ 64 then some (digitsVal cs) else none
  else none

/-- Rust `u64::checked_add` on values already below `2 ^ 64`. -/
def checkedAdd (a b : Nat) : Option Nat :=
  if a + b < 2 ^ 64 then some (a + b) else none

/-- The capacity-summation expression repeated verbatim inside `gather`
(sync.rs 226-235) and `disperse` (sync.rs 284-293): parse every capacity
string (collecting the first parse failure), then `try_fold` with
`u64::checked_add`. -/
def capacitySum (cells : List CellOutputWithOutPoint) : Except Err Nat :=
  match cells.mapM (fun c => parseU64 c.capacity) with
  | none => .error (.custom "parse capacity failed")
  | some caps =>
    match caps.foldlM checkedAdd 0 with
    | none => .error (.custom "sum capacity overflow")
    | some n => .ok n

/-- `CkbClient::total_capacity` (sync.rs 133-145), applied to the cell list
returned by `cells_by_lock_hash(lock, None, None)`: its own copy of the
parse-then-checked-fold expression. -/
def total_capacity (cells : List CellOutputWithOutPoint) : Except Err Nat :=
  match cells.mapM (fun c => parseU64 c.capacity) with
  | none => .error (.custom "parse capacity failed")
  | some caps =>
    match caps.foldlM checkedAdd 0 with
    | none => .error (.custom "sum capacity overflow")
    | some n => .ok n

/-- The `CellInput` built for each queried cell: its out-point, empty `args`,
`since = 0` (sync.rs 240-244 and 298-302). -/
def mkInput (c : CellOutputWithOutPoint) : CellInput :=
  { previous_output := c.out_point, args := [], since := 0 }

/-- The output shape `disperse` constructs before asking for its occupied
capacity: zero capacity, empty data, the destination lock, no type script
(sync.rs 308-313). -/
def zeroOutput (lockOut : Script) : CellOutput :=
  { capacity := 0, data := [], lock := lockOut, type_ := none }

/-- An output of `disperse` after its capacity has been set. -/
def dispOut (lockOut : Script) (cap : Nat) : CellOutput :=
  { capacity := cap, data := [], lock := lockOut, type_ := none }

/-- `CkbClient::gather` (sync.rs 216-264), as a function of the queried cell
list: sum the capacities, one input per cell, a single output carrying the
whole sum under the destination lock, version 0, empty deps and witnesses. -/
def gather (lockOut : Script) (cells : List CellOutputWithOutPoint) :
    Except Err Transaction :=
  match capacitySum cells with
  | .error e => .error e
  | .ok capacity =>
    .ok { version := 0
          deps := []
          inputs := cells.map mkInput
          outputs := [dispOut lockOut capacity]
          witnesses := []
          hash := 0 }

/-- The `while capacity > 0 && outputs.len() < max_count` loop of `disperse`
(sync.rs 306-322), recursing on the number of output slots still free.
`occ` is the external `occupied_capacity` collaborator (`none` = overflow);
each round it is consulted on the freshly built zero-capacity output, the
loop stops early when the remaining capacity is below that minimum, and
otherwise records an output at exactly the minimum.  Returns the remaining
capacity and the outputs produced. -/
def disperseLoop (occ : CellOutput → Option Nat) (lockOut : Script) :
    Nat → Nat → Except Err (Nat × List CellOutput)
  | 0, capacity => .ok (capacity, [])
  | slots + 1, capacity =>
    if capacity > 0 then
      match occ (zeroOutput lockOut) with
      | none => .error (.custom "capacity overflow")
      | some m =>
        if capacity < m then .ok (capacity, [])
        else
          match disperseLoop occ lockOut slots (capacity - m) with
          | .error e => .error e
          | .ok (rem, rest) => .ok (rem, dispOut lockOut m :: rest)
    else .ok (capacity, [])

/-- `CkbClient::disperse` (sync.rs 266-338), as a function of the queried
cell list: reject an empty cell set, sum the capacities, one input per cell,
build up to `maxCount` minimum-capacity outputs, then absorb any leftover
into `outputs[0]` via `Capacity::safe_add` — indexing that panics when no
output was produced. -/
def disperse (occ : CellOutput → Option Nat) (lockOut : Script)
    (cells : List CellOutputWithOutPoint) (maxCount : Nat) :
    Except Err Transaction :=
  if cells.isEmpty then .error (.custom "input is empty")
  else
    match capacitySum cells with
    | .error e => .error e
    | .ok capacity =>
      match disperseLoop occ lockOut maxCount capacity with
      | .error e => .error e
      | .ok (rem, outputs) =>
        if rem > 0 then
          match outputs with
          | [] => .error (.panicked "index out of bounds")
          | o :: rest =>
            match checkedAdd o.capacity rem with
            | none => .error (.custom "capacity overflow")
            | some c =>
              .ok { version := 0
                    deps := []
                    inputs := cells.map mkInput
                    outputs := { o with capacity := c } :: rest
                    witnesses := []
                    hash := 0 }
        else
          .ok { version := 0
                deps := []
                inputs := cells.map mkInput
                outputs := outputs
                witnesses := []
                hash := 0 }

/-- `CkbClient::tip_block_number` (sync.rs 34-43) as a function of the raw
remote response: parse the returned string as a block number. -/
def tip_block_number (resp : Except Err String) : Except Err Nat :=
  resp.bind fun r =>
    match parseU64 r with
    | some n => .ok n
    | none => .error (.custom "parse block number failed")

/-- `CkbClient::block_hash` (sync.rs 52-68): resolve the height (tip height
when absent), fetch the hash, and turn an absent hash into an error. -/
def block_hash (height : Option Nat) (tipResp : Except Err String)
    (fetch : Nat → Except Err (Option Nat)) : Except Err Nat :=
  (match height with
   | some h => Except.ok h
   | none => tip_block_number tipResp).bind fun h =>
    (fetch h).bind fun r =>
      match r with
      | some v => .ok v
      | none => .error (.custom "fetch block hash failed")

/-- Opaque block payload (`types::Block`). -/
abbrev Block := Nat

/-- `CkbClient::block_by_number` (sync.rs 70-81): resolve the height to a
hash via `block_hash`, then fetch the block by hash. -/
def block_by_number (height : Option Nat) (tipResp : Except Err String)
    (fetchHash : Nat → Except Err (Option Nat))
    (fetchBlock : Nat → Except Err (Option Block)) : Except Err Block :=
  (block_hash height tipResp fetchHash).bind fun h =>
    (fetchBlock h).bind fun r =>
      match r with
      | some b => .ok b
      | none => .error (.custom "fetch block failed")

/-- `CkbClient::block_by_hash` (sync.rs 83-91). -/
def block_by_hash (h : Nat) (fetchBlock : Nat → Except Err (Option Block)) :
    Except Err Block :=
  (fetchBlock h).bind fun r =>
    match r with
    | some b => .ok b
    | none => .error (.custom "fetch block failed")

/-- `CkbClient::transaction` (sync.rs 164-172): transaction lookup by hash,
absent result becomes an error. -/
def transaction (h : Nat) (fetch : Nat → Except Err (Option Transaction)) :
    Except Err Transaction :=
  (fetch h).bind fun r =>
    match r with
    | some t => .ok t
    | none => .error (.custom "fetch transaction failed")

/-- `CkbClient::pool_transaction` (sync.rs 154-162). -/
def pool_transaction (h : Nat)
    (fetch : Nat → Except Err (Option Transaction)) :
    Except Err Transaction :=
  (fetch h).bind fun r =>
    match r with
    | some t => .ok t
    | none => .error (.custom "fetch pool transaction failed")

/-- Opaque transaction-trace payload (`types::TxTrace`). -/
abbrev TxTrace := Nat

/-- `CkbClient::transaction_trace` (sync.rs 181-189). -/
def transaction_trace (h : Nat)
    (fetch : Nat → Except Err (Option (List TxTrace))) :
    Except Err (List TxTrace) :=
  (fetch h).bind fun r =>
    match r with
    | some t => .ok t
    | none => .error (.custom "fetch transaction trace failed")

/-! Helper lemmas about parsing and checked summation. -/

theorem parseU64_lt {s : String} {v : Nat} (h : parseU64 s = some v) :
    v < 2 ^ 64 := by
  simp only [parseU64] at h
  by_cases h1 : stripPlus s.data ≠ [] ∧ (stripPlus s.data).all Char.isDigit
  · rw [if_pos h1] at h
    by_cases h2 : digitsVal (stripPlus s.data) < 2 ^ 64
    · rw [if_pos h2] at h
      obtain rfl := Option.some.inj h
      exact h2
    · rw [if_neg h2] at h
      exact absurd h (by simp)
  · rw [if_neg h1] at h
    exact absurd h (by simp)

theorem checkedAdd_eq_some {a b c : Nat} (h : checkedAdd a b = some c) :
    c = a + b ∧ c < 2 ^ 64 := by
  unfold checkedAdd at h
  split at h
  · obtain rfl := Option.some.inj h
    exact ⟨rfl, by assumption⟩
  · exact absurd h (by simp)

theorem foldlM_checkedAdd (l : List Nat) (acc : Nat)
    (hl : ∀ x ∈ l, x < 2 ^ 64) (ha : acc < 2 ^ 64) :
    l.foldlM checkedAdd acc =
      if acc + l.sum < 2 ^ 64 then some (acc + l.sum) else none := by
  induction l generalizing acc with
  | nil =>
    rw [List.foldlM_nil, List.sum_nil, Nat.add_zero, if_pos ha]
    rfl
  | cons c t ih =>
    rw [List.foldlM_cons]
    by_cases hac : acc + c < 2 ^ 64
    · have hstep : checkedAdd acc c = some (acc + c) := by
        unfold checkedAdd
        rw [if_pos hac]
      rw [hstep]
      show t.foldlM checkedAdd (acc + c) = _
      rw [ih (acc + c) (fun x hx => hl x (List.mem_cons_of_mem _ hx)) hac]
      rw [List.sum_cons, Nat.add_assoc]
    · have hstep : checkedAdd acc c = none := by
        unfold checkedAdd
        rw [if_neg hac]
      rw [hstep]
      have : ¬ acc + (c :: t).sum < 2 ^ 64 := by
        rw [List.sum_cons]
        omega
      rw [if_neg this]
      rfl

theorem foldlM_checkedAdd_lt :
    ∀ (l : List Nat) (acc n : Nat), acc < 2 ^ 64 →
      l.foldlM checkedAdd acc = some n → n < 2 ^ 64
  | [], acc, n, ha, h => by
    obtain rfl : acc = n := Option.some.inj h
    exact ha
  | c :: t, acc, n, ha, h => by
    rw [List.foldlM_cons] at h
    rcases hc : checkedAdd acc c with _ | a
    · rw [hc] at h
      exact absurd h (by simp)
    · rw [hc] at h
      obtain ⟨-, hlt⟩ := checkedAdd_eq_some hc
      exact foldlM_checkedAdd_lt t a n hlt h

theorem mapM_eq_some_of_map {α β : Type} (f : α → Option β) :
    ∀ (l : List α) (vs : List β), l.map f = vs.map some → l.mapM f = some vs
  | [], vs, h => by
    obtain rfl : vs = [] := by
      cases vs with
      | nil => rfl
      | cons v t => simp at h
    rfl
  | a :: l, vs, h => by
    cases vs with
    | nil => simp at h
    | cons v t =>
      rw [List.map_cons, List.map_cons] at h
      obtain ⟨ha, hl⟩ := List.cons.inj h
      rw [List.mapM_cons, ha, mapM_eq_some_of_map f l t hl]
      rfl

theorem mapM_eq_none_of_mem {α β : Type} (f : α → Option β) :
    ∀ (l : List α) (a : α), a ∈ l → f a = none → l.mapM f = none
  | [], a, ha, _ => absurd ha (List.not_mem_nil a)
  | b :: l, a, ha, hf => by
    rw [List.mapM_cons]
    rcases List.mem_cons.mp ha with rfl | hmem
    · rw [hf]
      rfl
    · rcases hb : f b with _ | v
      · rfl
      · rw [mapM_eq_none_of_mem f l a hmem hf]
        rfl

theorem map_parse_mem_lt (cells : List CellOutputWithOutPoint) (vs : List Nat)
    (hp : cells.map (fun c => parseU64 c.capacity) = vs.map some) :
    ∀ v ∈ vs, v < 2 ^ 64 := by
  intro v hv
  have : some v ∈ cells.map (fun c => parseU64 c.capacity) := by
    rw [hp]
    exact List.mem_map_of_mem some hv
  obtain ⟨c, -, hc⟩ := List.mem_map.mp this
  exact parseU64_lt hc

theorem capacitySum_ok_of_parses (cells : List CellOutputWithOutPoint)
    (vs : List Nat)
    (hp : cells.map (fun c => parseU64 c.capacity) = vs.map some)
    (hs : vs.sum < 2 ^ 64) :
    capacitySum cells = .ok vs.sum := by
  unfold capacitySum
  simp only [mapM_eq_some_of_map (fun c => parseU64 c.capacity) cells vs hp]
  rw [foldlM_checkedAdd vs 0 (map_parse_mem_lt cells vs hp) (by positivity)]
  rw [Nat.zero_add, if_pos hs]

theorem capacitySum_overflow (cells : List CellOutputWithOutPoint)
    (vs : List Nat)
    (hp : cells.map (fun c => parseU64 c.capacity) = vs.map some)
    (hs : 2 ^ 64 ≤ vs.sum) :
    capacitySum cells = .error (.custom "sum capacity overflow") := by
  unfold capacitySum
  simp only [mapM_eq_some_of_map (fun c => parseU64 c.capacity) cells vs hp]
  rw [foldlM_checkedAdd vs 0 (map_parse_mem_lt cells vs hp) (by positivity)]
  rw [Nat.zero_add, if_neg (by omega)]

theorem capacitySum_parse_error (cells : List CellOutputWithOutPoint)
    (c : CellOutputWithOutPoint) (hc : c ∈ cells)
    (hn : parseU64 c.capacity = none) :
    capacitySum cells = .error (.custom "parse capacity failed") := by
  unfold capacitySum
  simp only [mapM_eq_none_of_mem (fun c => parseU64 c.capacity) cells c hc hn]

theorem capacitySum_ok_lt {cells : List CellOutputWithOutPoint} {n : Nat}
    (h : capacitySum cells = .ok n) : n < 2 ^ 64 := by
  unfold capacitySum at h
  rcases hm : cells.mapM (fun c => parseU64 c.capacity) with _ | caps
  · simp only [hm] at h
    exact Except.noConfusion h
  · simp only [hm] at h
    rcases hf : caps.foldlM checkedAdd 0 with _ | m
    · simp only [hf] at h
      exact Except.noConfusion h
    · simp only [hf, Except.ok.injEq] at h
      subst h
      exact foldlM_checkedAdd_lt caps 0 m (by positivity) hf

/-! Helper lemmas about the output-building loop of `disperse`. -/

theorem disperseLoop_sum (occ : CellOutput → Option Nat) (lockOut : Script)
    (slots : Nat) :
    ∀ (cap rem : Nat) (outs : List CellOutput),
      disperseLoop occ lockOut slots cap = .ok (rem, outs) →
      rem + (outs.map CellOutput.capacity).sum = cap := by
  induction slots with
  | zero =>
    intro cap rem outs h
    simp only [disperseLoop, Except.ok.injEq, Prod.mk.injEq] at h
    obtain ⟨rfl, rfl⟩ := h
    simp
  | succ slots ih =>
    intro cap rem outs h
    simp only [disperseLoop] at h
    by_cases hcap : cap > 0
    · rw [if_pos hcap] at h
      rcases hocc : occ (zeroOutput lockOut) with _ | m
      · simp only [hocc] at h
        exact Except.noConfusion h
      · simp only [hocc] at h
        by_cases hlt : cap < m
        · rw [if_pos hlt] at h
          simp only [Except.ok.injEq, Prod.mk.injEq] at h
          obtain ⟨rfl, rfl⟩ := h
          simp
        · rw [if_neg hlt] at h
          rcases hrec : disperseLoop occ lockOut slots (cap - m) with e | ⟨rem2, rest⟩
          · simp only [hrec] at h
            exact Except.noConfusion h
          · simp only [hrec, Except.ok.injEq, Prod.mk.injEq] at h
            obtain ⟨rfl, rfl⟩ := h
            have hih := ih (cap - m) rem2 rest hrec
            have hmle : m ≤ cap := Nat.le_of_not_lt hlt
            simp only [List.map_cons, List.sum_cons, dispOut]
            omega
    · rw [if_neg hcap] at h
      simp only [Except.ok.injEq, Prod.mk.injEq] at h
      obtain ⟨rfl, rfl⟩ := h
      simp

theorem disperseLoop_mem (occ : CellOutput → Option Nat) (lockOut : Script)
    (M : Nat) (hM : occ (zeroOutput lockOut) = some M) (slots : Nat) :
    ∀ (cap rem : Nat) (outs : List CellOutput),
      disperseLoop occ lockOut slots cap = .ok (rem, outs) →
      ∀ o ∈ outs, o = dispOut lockOut M := by
  induction slots with
  | zero =>
    intro cap rem outs h
    simp only [disperseLoop, Except.ok.injEq, Prod.mk.injEq] at h
    obtain ⟨-, rfl⟩ := h
    simp
  | succ slots ih =>
    intro cap rem outs h
    simp only [disperseLoop] at h
    by_cases hcap : cap > 0
    · rw [if_pos hcap] at h
      simp only [hM] at h
      by_cases hlt : cap < M
      · rw [if_pos hlt] at h
        simp only [Except.ok.injEq, Prod.mk.injEq] at h
        obtain ⟨-, rfl⟩ := h
        simp
      · rw [if_neg hlt] at h
        rcases hrec : disperseLoop occ lockOut slots (cap - M) with e | ⟨rem2, rest⟩
        · simp only [hrec] at h
          exact Except.noConfusion h
        · simp only [hrec, Except.ok.injEq, Prod.mk.injEq] at h
          obtain ⟨-, rfl⟩ := h
          intro o ho
          rcases List.mem_cons.mp ho with rfl | ho
          · rfl
          · exact ih (cap - M) rem2 rest hrec o ho
    · rw [if_neg hcap] at h
      simp only [Except.ok.injEq, Prod.mk.injEq] at h
      obtain ⟨-, rfl⟩ := h
      simp

theorem disperseLoop_zero_cap (occ : CellOutput → Option Nat)
    (lockOut : Script) (slots : Nat) :
    disperseLoop occ lockOut slots 0 = .ok (0, []) := by
  cases slots with
  | zero => rfl
  | succ slots => simp [disperseLoop]

theorem disperseLoop_closed (occ : CellOutput → Option Nat) (lockOut : Script)
    (M : Nat) (hM : occ (zeroOutput lockOut) = some M) (hM1 : 0 < M)
    (slots : Nat) :
    ∀ cap, disperseLoop occ lockOut slots cap =
      .ok (cap - min (cap / M) slots * M,
           List.replicate (min (cap / M) slots) (dispOut lockOut M)) := by
  induction slots with
  | zero => intro cap; simp [disperseLoop]
  | succ slots ih =>
    intro cap
    simp only [disperseLoop]
    by_cases hcap : cap > 0
    · rw [if_pos hcap]
      simp only [hM]
      by_cases hlt : cap < M
      · rw [if_pos hlt]
        have hdiv : cap / M = 0 := Nat.div_eq_of_lt hlt
        simp [hdiv]
      · rw [if_neg hlt]
        simp only [ih]
        have hMle : M ≤ cap := Nat.le_of_not_lt hlt
        have hdiv : cap / M = (cap - M) / M + 1 := by
          conv_lhs => rw [← Nat.sub_add_cancel hMle]
          rw [Nat.add_div_right _ hM1]
        have hk : (cap - M) / M * M ≤ cap - M := Nat.div_mul_le_self _ _
        have hmin : min ((cap - M) / M) slots * M ≤ cap - M :=
          le_trans (Nat.mul_le_mul_right _ (Nat.min_le_left _ _)) hk
        rw [hdiv, Nat.succ_min_succ]
        have harith : cap - (min ((cap - M) / M) slots + 1) * M
            = cap - M - min ((cap - M) / M) slots * M := by
          rw [Nat.succ_mul]
          omega
        rw [harith, List.replicate_succ]
    · rw [if_neg hcap]
      have hc0 : cap = 0 := by omega
      subst hc0
      simp

/-! Helper lemmas about `disperse` as a whole. -/

theorem isEmpty_false_of_ne_nil {α : Type} {l : List α} (h : l ≠ []) :
    ¬ l.isEmpty = true := by
  cases l with
  | nil => exact absurd rfl h
  | cons a t => simp

theorem disperse_ok_sum (occ : CellOutput → Option Nat) (lockOut : Script)
    (cells : List CellOutputWithOutPoint) (K : Nat) (tx : Transaction)
    (C : Nat) (h : disperse occ lockOut cells K = .ok tx)
    (hC : capacitySum cells = .ok C) :
    (tx.outputs.map CellOutput.capacity).sum = C := by
  unfold disperse at h
  by_cases hne : cells.isEmpty
  · rw [if_pos hne] at h
    exact Except.noConfusion h
  · rw [if_neg hne] at h
    simp only [hC] at h
    rcases hloop : disperseLoop occ lockOut K C with e | ⟨rem, outs⟩
    · simp only [hloop] at h
      exact Except.noConfusion h
    · simp only [hloop] at h
      have hsum := disperseLoop_sum occ lockOut K C rem outs hloop
      by_cases hrem : rem > 0
      · rw [if_pos hrem] at h
        cases outs with
        | nil => exact Except.noConfusion h
        | cons o rest =>
          rcases hadd : checkedAdd o.capacity rem with _ | c
          · simp only [hadd] at h
            exact Except.noConfusion h
          · simp only [hadd, Except.ok.injEq] at h
            subst h
            obtain ⟨hc, -⟩ := checkedAdd_eq_some hadd
            simp only [List.map_cons, List.sum_cons] at hsum
            dsimp only
            simp only [List.map_cons, List.sum_cons]
            omega
      · rw [if_neg hrem] at h
        simp only [Except.ok.injEq] at h
        subst h
        dsimp only
        omega

theorem disperse_ok_min (occ : CellOutput → Option Nat) (lockOut : Script)
    (cells : List CellOutputWithOutPoint) (K : Nat) (tx : Transaction)
    (M : Nat) (h : disperse occ lockOut cells K = .ok tx)
    (hM : occ (zeroOutput lockOut) = some M) :
    ∀ o ∈ tx.outputs, M ≤ o.capacity := by
  unfold disperse at h
  by_cases hne : cells.isEmpty
  · rw [if_pos hne] at h
    exact Except.noConfusion h
  · rw [if_neg hne] at h
    rcases hcs : capacitySum cells with e | C
    · simp only [hcs] at h
      exact Except.noConfusion h
    · simp only [hcs] at h
      rcases hloop : disperseLoop occ lockOut K C with e | ⟨rem, outs⟩
      · simp only [hloop] at h
        exact Except.noConfusion h
      · simp only [hloop] at h
        have hmem := disperseLoop_mem occ lockOut M hM K C rem outs hloop
        by_cases hrem : rem > 0
        · rw [if_pos hrem] at h
          cases outs with
          | nil => exact Except.noConfusion h
          | cons o rest =>
            rcases hadd : checkedAdd o.capacity rem with _ | c
            · simp only [hadd] at h
              exact Except.noConfusion h
            · simp only [hadd, Except.ok.injEq] at h
              subst h
              obtain ⟨hc, -⟩ := checkedAdd_eq_some hadd
              have ho : o = dispOut lockOut M := hmem o (List.mem_cons_self o rest)
              intro x hx
              dsimp only at hx
              rcases List.mem_cons.mp hx with rfl | hx
              · have : o.capacity = M := by rw [ho]; rfl
                dsimp only
                omega
              · have : x = dispOut lockOut M :=
                  hmem x (List.mem_cons_of_mem o hx)
                rw [this]
                exact Nat.le_refl M
        · rw [if_neg hrem] at h
          simp only [Except.ok.injEq] at h
          subst h
          intro x hx
          dsimp only at hx
          have : x = dispOut lockOut M := hmem x hx
          rw [this]
          exact Nat.le_refl M

theorem disperse_closed (occ : CellOutput → Option Nat) (lockOut : Script)
    (cells : List CellOutputWithOutPoint) (K C M n : Nat)
    (hne : cells ≠ [])
    (hC : capacitySum cells = .ok C)
    (hM : occ (zeroOutput lockOut) = some M) (hM1 : 0 < M)
    (hn : n = min (C / M) K) (hn1 : 1 ≤ n) :
    disperse occ lockOut cells K =
      .ok { version := 0, deps := [], inputs := cells.map mkInput,
            outputs := dispOut lockOut (M + (C - n * M))
              :: List.replicate (n - 1) (dispOut lockOut M),
            witnesses := [], hash := 0 } := by
  have hCl := capacitySum_ok_lt hC
  unfold disperse
  rw [if_neg (isEmpty_false_of_ne_nil hne)]
  simp only [hC]
  simp only [disperseLoop_closed occ lockOut M hM hM1 K]
  rw [← hn]
  have hnM : n * M ≤ C := by
    rw [hn]
    exact le_trans (Nat.mul_le_mul_right _ (Nat.min_le_left _ _))
      (Nat.div_mul_le_self _ _)
  have hMle : M ≤ n * M := Nat.le_mul_of_pos_left M hn1
  have hrepl : List.replicate n (dispOut lockOut M)
      = dispOut lockOut M :: List.replicate (n - 1) (dispOut lockOut M) := by
    conv_lhs => rw [← Nat.sub_add_cancel hn1]
    rw [List.replicate_succ]
  by_cases hrem : C - n * M > 0
  · rw [if_pos hrem]
    rw [hrepl]
    have hadd : checkedAdd M (C - n * M) = some (M + (C - n * M)) := by
      unfold checkedAdd
      rw [if_pos (by omega)]
    simp only [dispOut, hadd]
  · rw [if_neg hrem]
    have h0 : C - n * M = 0 := by omega
    rw [h0, Nat.add_zero, hrepl]

/-! The claims. -/

/-- C1: for every successful result of `gather` or `disperse`, the sum of the
capacities of the produced outputs equals the sum of the parsed capacities of
the queried input cells — no value is created or destroyed and no fee is
deducted — for all cell sets whose capacities sum without 64-bit overflow. -/
theorem conservation_of_capacity (occ : CellOutput → Option Nat)
    (lockOut : Script) (K : Nat) (cells : List CellOutputWithOutPoint)
    (vs : List Nat) (tx : Transaction)
    (hp : cells.map (fun c => parseU64 c.capacity) = vs.map some)
    (hs : vs.sum < 2 ^ 64)
    (h : gather lockOut cells = .ok tx ∨ disperse occ lockOut cells K = .ok tx) :
    (tx.outputs.map CellOutput.capacity).sum = vs.sum := by
  have hC := capacitySum_ok_of_parses cells vs hp hs
  rcases h with h | h
  · unfold gather at h
    simp only [hC, Except.ok.injEq] at h
    subst h
    simp [dispOut]
  · exact disperse_ok_sum occ lockOut cells K tx vs.sum h hC

theorem conservation_of_capacity_witness :
    (([⟨⟨1, 0⟩, "1000", 9⟩, ⟨⟨2, 0⟩, "2000", 9⟩, ⟨⟨3, 1⟩, "3000", 9⟩] :
        List CellOutputWithOutPoint).map (fun c => parseU64 c.capacity)
      = ([1000, 2000, 3000] : List Nat).map some) ∧
    ([1000, 2000, 3000] : List Nat).sum < 2 ^ 64 ∧
    (({ version := 0, deps := [],
        inputs := [⟨⟨1, 0⟩, [], 0⟩, ⟨⟨2, 0⟩, [], 0⟩, ⟨⟨3, 1⟩, [], 0⟩],
        outputs := [dispOut 7 3500, dispOut 7 2500],
        witnesses := [], hash := 0 } : Transaction).outputs.map
          CellOutput.capacity).sum = ([1000, 2000, 3000] : List Nat).sum :=
  ⟨by decide, by decide,
    conservation_of_capacity (fun _ => some 2500) 7 2
      [⟨⟨1, 0⟩, "1000", 9⟩, ⟨⟨2, 0⟩, "2000", 9⟩, ⟨⟨3, 1⟩, "3000", 9⟩]
      [1000, 2000, 3000] _ (by decide) (by decide) (Or.inr (by decide))⟩

/-- C2: in the capacity-summation step shared by `gather` and `disperse`,
every cell's capacity string is parsed as an unsigned 64-bit integer,
failing with the parse error if any entry is unparsable; the parsed values
are folded with checked addition and an overflow aborts the whole operation
with the overflow error — the sum never wraps, saturates, or yields a
partial result. -/
theorem summation_step_checked (cells : List CellOutputWithOutPoint) :
    ((∃ c ∈ cells, parseU64 c.capacity = none) →
      capacitySum cells = .error (.custom "parse capacity failed")) ∧
    (∀ vs : List Nat,
      cells.map (fun c => parseU64 c.capacity) = vs.map some →
      (vs.sum < 2 ^ 64 → capacitySum cells = .ok vs.sum) ∧
      (2 ^ 64 ≤ vs.sum →
        capacitySum cells = .error (.custom "sum capacity overflow"))) := by
  refine ⟨?_, fun vs hp =>
    ⟨fun hs => capacitySum_ok_of_parses cells vs hp hs,
     fun hs => capacitySum_overflow cells vs hp hs⟩⟩
  rintro ⟨c, hc, hn⟩
  exact capacitySum_parse_error cells c hc hn

theorem summation_step_checked_witness :
    capacitySum [⟨⟨1, 0⟩, "5", 9⟩, ⟨⟨2, 0⟩, "x", 9⟩]
      = .error (.custom "parse capacity failed") ∧
    capacitySum [⟨⟨1, 0⟩, "5", 9⟩, ⟨⟨2, 0⟩, "7", 9⟩] = .ok 12 ∧
    capacitySum [⟨⟨1, 0⟩, "18446744073709551615", 9⟩, ⟨⟨2, 0⟩, "1", 9⟩]
      = .error (.custom "sum capacity overflow") :=
  ⟨(summation_step_checked _).1 ⟨⟨⟨2, 0⟩, "x", 9⟩, by decide, by decide⟩,
   ((summation_step_checked _).2 [5, 7] (by decide)).1 (by decide),
   ((summation_step_checked _).2 [2 ^ 64 - 1, 1] (by decide)).2 (by decide)⟩

/-- C3: `disperse` invoked on an empty queried cell set fails with the
empty-input error, whereas `gather` on an empty cell set succeeds and
returns a transaction with zero inputs and exactly one output of
capacity 0. -/
theorem empty_input_policy (occ : CellOutput → Option Nat)
    (lockOut : Script) (K : Nat) :
    disperse occ lockOut [] K = .error (.custom "input is empty") ∧
    gather lockOut [] =
      .ok { version := 0, deps := [], inputs := [],
            outputs := [dispOut lockOut 0], witnesses := [], hash := 0 } :=
  ⟨rfl, rfl⟩

/-- C4: every output in a successfully assembled `disperse` transaction has
capacity at least the minimum-occupied-capacity computed for that output's
shape (empty data, destination condition, no secondary condition). -/
theorem disperse_min_capacity (occ : CellOutput → Option Nat)
    (lockOut : Script) (cells : List CellOutputWithOutPoint) (K : Nat)
    (tx : Transaction) (M : Nat)
    (h : disperse occ lockOut cells K = .ok tx)
    (hM : occ (zeroOutput lockOut) = some M) :
    ∀ o ∈ tx.outputs, M ≤ o.capacity :=
  disperse_ok_min occ lockOut cells K tx M h hM

theorem disperse_min_capacity_witness :
    2500 ≤ (dispOut 7 3500).capacity ∧ 2500 ≤ (dispOut 7 2500).capacity :=
  ⟨disperse_min_capacity (fun _ => some 2500) 7
      [⟨⟨1, 0⟩, "1000", 9⟩, ⟨⟨2, 0⟩, "2000", 9⟩, ⟨⟨3, 1⟩, "3000", 9⟩] 2
      { version := 0, deps := [],
        inputs := [⟨⟨1, 0⟩, [], 0⟩, ⟨⟨2, 0⟩, [], 0⟩, ⟨⟨3, 1⟩, [], 0⟩],
        outputs := [dispOut 7 3500, dispOut 7 2500],
        witnesses := [], hash := 0 } 2500 (by decide) rfl
      (dispOut 7 3500) (by decide),
   disperse_min_capacity (fun _ => some 2500) 7
      [⟨⟨1, 0⟩, "1000", 9⟩, ⟨⟨2, 0⟩, "2000", 9⟩, ⟨⟨3, 1⟩, "3000", 9⟩] 2
      { version := 0, deps := [],
        inputs := [⟨⟨1, 0⟩, [], 0⟩, ⟨⟨2, 0⟩, [], 0⟩, ⟨⟨3, 1⟩, [], 0⟩],
        outputs := [dispOut 7 3500, dispOut 7 2500],
        witnesses := [], hash := 0 } 2500 (by decide) rfl
      (dispOut 7 2500) (by decide)⟩

/-- C5: for `disperse` over cells summing to total capacity `C`, with
per-output minimum-occupied-capacity `M` and `max_count = K`: writing
`C = q * M + r` with `0 ≤ r < M`, if `1 ≤ q ≤ K` the successful result has
exactly `q` outputs, each of capacity `M` except the first which has
capacity `M + r`; if `q > K` (with at least one output slot) the result has
exactly `K` outputs, the first holding `M + (C - K * M)` and the rest `M`
each — the leftover is always absorbed into the first output via checked
addition. -/
theorem disperse_leftover_absorption (occ : CellOutput → Option Nat)
    (lockOut : Script) (cells : List CellOutputWithOutPoint)
    (C M q r K : Nat)
    (hne : cells ≠ []) (hC : capacitySum cells = .ok C)
    (hM : occ (zeroOutput lockOut) = some M) (hM1 : 0 < M)
    (hCqr : C = q * M + r) (hr : r < M) (hq : 1 ≤ q) :
    (q ≤ K → disperse occ lockOut cells K =
      .ok { version := 0, deps := [], inputs := cells.map mkInput,
            outputs := dispOut lockOut (M + r)
              :: List.replicate (q - 1) (dispOut lockOut M),
            witnesses := [], hash := 0 }) ∧
    (K < q → 1 ≤ K → disperse occ lockOut cells K =
      .ok { version := 0, deps := [], inputs := cells.map mkInput,
            outputs := dispOut lockOut (M + (C - K * M))
              :: List.replicate (K - 1) (dispOut lockOut M),
            witnesses := [], hash := 0 }) := by
  have hdiv : C / M = q := by
    rw [hCqr, Nat.add_comm, Nat.add_mul_div_right r q hM1,
      Nat.div_eq_of_lt hr, Nat.zero_add]
  constructor
  · intro hqK
    have hmin : q = min (C / M) K := by
      rw [hdiv]
      exact (Nat.min_eq_left hqK).symm
    have hres := disperse_closed occ lockOut cells K C M q hne hC hM hM1 hmin hq
    have hsub : C - q * M = r := by omega
    rw [hsub] at hres
    exact hres
  · intro hKq hK1
    have hmin : K = min (C / M) K := by
      rw [hdiv]
      exact (Nat.min_eq_right (Nat.le_of_lt hKq)).symm
    exact disperse_closed occ lockOut cells K C M K hne hC hM hM1 hmin hK1

theorem disperse_leftover_absorption_witness :
    disperse (fun _ => some 2500) 7
      [⟨⟨1, 0⟩, "1000", 9⟩, ⟨⟨2, 0⟩, "2000", 9⟩, ⟨⟨3, 1⟩, "3000", 9⟩] 2 =
      .ok { version := 0, deps := [],
            inputs := [⟨⟨1, 0⟩, [], 0⟩, ⟨⟨2, 0⟩, [], 0⟩, ⟨⟨3, 1⟩, [], 0⟩],
            outputs := dispOut 7 3500 :: List.replicate 1 (dispOut 7 2500),
            witnesses := [], hash := 0 } ∧
    disperse (fun _ => some 2000) 7
      [⟨⟨1, 0⟩, "1000", 9⟩, ⟨⟨2, 0⟩, "2000", 9⟩, ⟨⟨3, 1⟩, "3000", 9⟩] 2 =
      .ok { version := 0, deps := [],
            inputs := [⟨⟨1, 0⟩, [], 0⟩, ⟨⟨2, 0⟩, [], 0⟩, ⟨⟨3, 1⟩, [], 0⟩],
            outputs := dispOut 7 4000 :: List.replicate 1 (dispOut 7 2000),
            witnesses := [], hash := 0 } :=
  ⟨(disperse_leftover_absorption (fun _ => some 2500) 7
      [⟨⟨1, 0⟩, "1000", 9⟩, ⟨⟨2, 0⟩, "2000", 9⟩, ⟨⟨3, 1⟩, "3000", 9⟩]
      6000 2500 2 1000 2 (by decide) (by decide) rfl (by decide) (by decide)
      (by decide) (by decide)).1 (by decide),
   (disperse_leftover_absorption (fun _ => some 2000) 7
      [⟨⟨1, 0⟩, "1000", 9⟩, ⟨⟨2, 0⟩, "2000", 9⟩, ⟨⟨3, 1⟩, "3000", 9⟩]
      6000 2000 3 0 2 (by decide) (by decide) rfl (by decide) (by decide)
      (by decide) (by decide)).2 (by decide) (by decide)⟩

/-- C6: a successful `gather` builds one `CellInput` per queried cell in
query-result order (each with empty auxiliary arguments and a zero
relative-time lock) and exactly one `CellOutput` carrying the full summed
capacity with empty data, the destination condition and no secondary
condition, in a transaction with version 0 and empty dependency and witness
lists. -/
theorem gather_builds_single_output (lockOut : Script)
    (cells : List CellOutputWithOutPoint) (C : Nat)
    (hC : capacitySum cells = .ok C) :
    gather lockOut cells =
      .ok { version := 0, deps := [], inputs := cells.map mkInput,
            outputs := [dispOut lockOut C], witnesses := [], hash := 0 } := by
  unfold gather
  simp only [hC]

theorem gather_builds_single_output_witness :
    gather 7 [⟨⟨1, 0⟩, "1000", 9⟩, ⟨⟨2, 0⟩, "2000", 9⟩, ⟨⟨3, 1⟩, "3000", 9⟩] =
      .ok { version := 0, deps := [],
            inputs := [⟨⟨1, 0⟩, [], 0⟩, ⟨⟨2, 0⟩, [], 0⟩, ⟨⟨3, 1⟩, [], 0⟩],
            outputs := [dispOut 7 6000], witnesses := [], hash := 0 } := by
  rw [gather_builds_single_output 7
    [⟨⟨1, 0⟩, "1000", 9⟩, ⟨⟨2, 0⟩, "2000", 9⟩, ⟨⟨3, 1⟩, "3000", 9⟩]
    6000 (by decide)]
  decide

/-- C7: `total_capacity` applied to the cells returned for a condition is
exactly the shared overflow-checked capacity summation used by `gather` and
`disperse` — the two computations agree on the success value and on every
error case (parse error on an unparsable capacity, overflow error on a
64-bit overflow). -/
theorem total_capacity_refines_capacitySum :
    ∀ cells, total_capacity cells = capacitySum cells :=
  fun _ => rfl

/-- C9: the leftover-absorption step of `disperse` requires at least one
output to already exist: whenever `max_count` is 0, or the very first
minimum-occupied-capacity exceeds the summed total, no output is produced
and the operation fails on an out-of-range access to the first output
instead of returning a typed error. -/
theorem disperse_no_output_out_of_range (occ : CellOutput → Option Nat)
    (lockOut : Script) (cells : List CellOutputWithOutPoint) (K C M : Nat)
    (hne : cells ≠ []) (hC : capacitySum cells = .ok C) (hCpos : 0 < C)
    (hcase : K = 0 ∨ (occ (zeroOutput lockOut) = some M ∧ C < M)) :
    disperse occ lockOut cells K = .error (.panicked "index out of bounds") := by
  unfold disperse
  rw [if_neg (isEmpty_false_of_ne_nil hne)]
  simp only [hC]
  have hloop : disperseLoop occ lockOut K C = .ok (C, []) := by
    rcases hcase with rfl | ⟨hM, hlt⟩
    · rfl
    · cases K with
      | zero => rfl
      | succ K =>
        simp only [disperseLoop]
        rw [if_pos hCpos]
        simp only [hM]
        rw [if_pos hlt]
  simp only [hloop]
  rw [if_pos hCpos]

theorem disperse_no_output_out_of_range_witness :
    disperse (fun _ => some 2500) 7
      [⟨⟨1, 0⟩, "1000", 9⟩, ⟨⟨2, 0⟩, "2000", 9⟩, ⟨⟨3, 1⟩, "3000", 9⟩] 0 =
      .error (.panicked "index out of bounds") ∧
    disperse (fun _ => some 9999) 7
      [⟨⟨1, 0⟩, "1000", 9⟩, ⟨⟨2, 0⟩, "2000", 9⟩, ⟨⟨3, 1⟩, "3000", 9⟩] 3 =
      .error (.panicked "index out of bounds") :=
  ⟨disperse_no_output_out_of_range (fun _ => some 2500) 7
      [⟨⟨1, 0⟩, "1000", 9⟩, ⟨⟨2, 0⟩, "2000", 9⟩, ⟨⟨3, 1⟩, "3000", 9⟩]
      0 6000 2500 (by decide) (by decide) (by decide) (Or.inl rfl),
   disperse_no_output_out_of_range (fun _ => some 9999) 7
      [⟨⟨1, 0⟩, "1000", 9⟩, ⟨⟨2, 0⟩, "2000", 9⟩, ⟨⟨3, 1⟩, "3000", 9⟩]
      3 6000 9999 (by decide) (by decide) (by decide)
      (Or.inr ⟨rfl, by decide⟩)⟩

/-- C10: for every non-empty queried cell set whose capacities all parse to
0 (summed total 0), `disperse` succeeds — for any `max_count`, including
0 — and returns a transaction with one input per cell and an empty output
list: the output-building loop never runs, the out-of-range first-output
access is not reached, and neither an error nor a panic occurs. -/
theorem disperse_all_zero_empty_outputs (occ : CellOutput → Option Nat)
    (lockOut : Script) (cells : List CellOutputWithOutPoint) (K : Nat)
    (hne : cells ≠ [])
    (hz : ∀ c ∈ cells, parseU64 c.capacity = some 0) :
    disperse occ lockOut cells K =
      .ok { version := 0, deps := [], inputs := cells.map mkInput,
            outputs := [], witnesses := [], hash := 0 } := by
  have hmap : cells.map (fun c => parseU64 c.capacity)
      = (cells.map fun _ => (0 : Nat)).map some := by
    rw [List.map_map]
    exact List.map_congr_left hz
  have hsum : (cells.map fun _ => (0 : Nat)).sum = 0 := by
    refine List.sum_eq_zero ?_
    intro x hx
    rcases List.mem_map.mp hx with ⟨c, -, rfl⟩
    rfl
  have hC : capacitySum cells = .ok 0 := by
    have hok := capacitySum_ok_of_parses cells (cells.map fun _ => (0 : Nat))
      hmap (by rw [hsum]; positivity)
    rw [hsum] at hok
    exact hok
  unfold disperse
  rw [if_neg (isEmpty_false_of_ne_nil hne)]
  simp only [hC, disperseLoop_zero_cap]
  rw [if_neg (by omega)]

theorem disperse_all_zero_empty_outputs_witness :
    disperse (fun _ => none) 7 [⟨⟨1, 0⟩, "0", 9⟩, ⟨⟨2, 0⟩, "0", 9⟩] 0 =
      .ok { version := 0, deps := [],
            inputs := [⟨⟨1, 0⟩, [], 0⟩, ⟨⟨2, 0⟩, [], 0⟩],
            outputs := [], witnesses := [], hash := 0 } ∧
    disperse (fun _ => none) 7 [⟨⟨1, 0⟩, "0", 9⟩, ⟨⟨2, 0⟩, "0", 9⟩] 5 =
      .ok { version := 0, deps := [],
            inputs := [⟨⟨1, 0⟩, [], 0⟩, ⟨⟨2, 0⟩, [], 0⟩],
            outputs := [], witnesses := [], hash := 0 } :=
  ⟨disperse_all_zero_empty_outputs (fun _ => none) 7
      [⟨⟨1, 0⟩, "0", 9⟩, ⟨⟨2, 0⟩, "0", 9⟩] 0 (by decide) (by decide),
   disperse_all_zero_empty_outputs (fun _ => none) 7
      [⟨⟨1, 0⟩, "0", 9⟩, ⟨⟨2, 0⟩, "0", 9⟩] 5 (by decide) (by decide)⟩

/-- C8 counterexample: the not-found failure of `block_hash` is the fixed
message `fetch block hash failed`; querying two different heights whose
hashes are absent yields literally the same error value, so the error does
not carry the queried key as the claim states. -/
theorem notfound_error_carries_no_key :
    block_hash (some 5) (.ok "0") (fun _ => .ok none)
      = .error (.custom "fetch block hash failed") ∧
    block_hash (some 7) (.ok "0") (fun _ => .ok none)
      = block_hash (some 5) (.ok "0") (fun _ => .ok none) :=
  ⟨rfl, rfl⟩

/-- C8 (amended): every Query Facade lookup that receives a structurally
present but semantically absent response fails with a distinct per-method
not-found error — a fixed `Error::custom` message, distinguishable from the
parse errors and from a transport error, but not carrying the queried
key. -/
theorem notfound_policy_amended (h k hh : Nat) (tipR : Except Err String)
    (fH gH : Nat → Except Err (Option Nat))
    (fB gB : Nat → Except Err (Option Block))
    (fT fP : Nat → Except Err (Option Transaction))
    (fR : Nat → Except Err (Option (List TxTrace)))
    (hH : fH h = .ok none) (hgH : gH h = .ok (some hh))
    (hgB : gB hh = .ok none) (hB : fB k = .ok none)
    (hT : fT k = .ok none) (hP : fP k = .ok none) (hR : fR k = .ok none) :
    block_hash (some h) tipR fH = .error (.custom "fetch block hash failed") ∧
    block_by_number (some h) tipR gH gB
      = .error (.custom "fetch block failed") ∧
    block_by_hash k fB = .error (.custom "fetch block failed") ∧
    transaction k fT = .error (.custom "fetch transaction failed") ∧
    pool_transaction k fP
      = .error (.custom "fetch pool transaction failed") ∧
    transaction_trace k fR
      = .error (.custom "fetch transaction trace failed") ∧
    Err.custom "fetch block hash failed"
      ≠ Err.custom "parse block number failed" ∧
    Err.custom "fetch transaction failed"
      ≠ Err.custom "parse capacity failed" ∧
    (∀ e, Err.custom "fetch block hash failed" ≠ Err.transport e) := by
  refine ⟨?_, ?_, ?_, ?_, ?_, ?_, by decide, by decide,
    fun e he => Err.noConfusion he⟩
  · simp [block_hash, Except.bind, hH]
  · simp [block_by_number, block_hash, Except.bind, hgH, hgB]
  · simp [block_by_hash, Except.bind, hB]
  · simp [transaction, Except.bind, hT]
  · simp [pool_transaction, Except.bind, hP]
  · simp [transaction_trace, Except.bind, hR]

theorem notfound_policy_amended_witness :
    block_hash (some 5) (.ok "0") (fun _ => .ok none)
      = .error (.custom "fetch block hash failed") ∧
    transaction 9 (fun _ => .ok none)
      = .error (.custom "fetch transaction failed") :=
  ⟨(notfound_policy_amended 5 9 3 (.ok "0") (fun _ => .ok none)
      (fun _ => .ok (some 3)) (fun _ => .ok none) (fun _ => .ok none)
      (fun _ => .ok none) (fun _ => .ok none) (fun _ => .ok none)
      rfl rfl rfl rfl rfl rfl rfl).1,
   (notfound_policy_amended 5 9 3 (.ok "0") (fun _ => .ok none)
      (fun _ => .ok (some 3)) (fun _ => .ok none) (fun _ => .ok none)
      (fun _ => .ok none) (fun _ => .ok none) (fun _ => .ok none)
      rfl rfl rfl rfl rfl rfl rfl).2.2.2.1⟩
